import Mathlib

/-!
# Shell-shell: verification of the lexer/parser and redirection-aware output model

Shallow embedding of the Rust sources of the `Shell-shell` repository:
`src/parser.rs` (tokenizer, redirection splitter, redirection parser, command
builder), `src/utils.rs` (`expand_home_path`, `write_output`), `src/command.rs`
(command data model, `arg_check_in_path`, the `Cat` execution arm), and
`src/main.rs` (`is_present_in_path`).

Strings are modelled as `List Char` (`Str`). The file system is modelled as a
total map from paths to optional contents (`some` = readable file with that
content, `none` = absent). Rust panics (`unwrap` on a failing operation,
out-of-bounds indexing) are modelled as `Except.error` with a `PanicKind`
naming the failing operation; a panic aborts the interpreter process.
-/

deriving instance DecidableEq for Except

namespace ShellShell

/-- Rust `String` / `&str` contents, modelled as a list of characters. -/
abbrev Str := List Char

/-- Models Rust's `char::is_whitespace` (the inputs at stake are ASCII, where
the two predicates agree). -/
def isWs (c : Char) : Bool := c.isWhitespace

/-- Models Rust's `str::trim`: drop whitespace from both ends. -/
def trimStr (s : Str) : Str :=
  ((s.dropWhile isWs).reverse.dropWhile isWs).reverse

/-! ## Tokenizer (`tokenize`, src/parser.rs lines 14-70) -/

/-- The mutable locals of one `tokenize` invocation: the completed tokens,
the fragment being accumulated (`curr`), and the three scan flags. -/
structure TokState where
  tokens : List Str
  curr : Str
  inSingle : Bool
  inDouble : Bool
  toEscape : Bool
  deriving DecidableEq

/-- One iteration of the `for c in input.chars()` loop of `tokenize`. -/
def tokStep (st : TokState) (c : Char) : TokState :=
  if st.toEscape then
    -- escape pending (`to_escape`): lines 24-38
    if st.inDouble && (c = '"' || c = '\\' || c = '`' || c = '$') then
      { st with curr := st.curr ++ [c], toEscape := false }
    else if st.inDouble then
      { st with curr := st.curr ++ ['\\', c], toEscape := false }
    else if !st.inDouble && !st.inDouble then
      -- the source repeats `!in_double_quote` twice; kept verbatim
      { st with curr := st.curr ++ [c], toEscape := false }
    else
      st
  else if c = '\'' && !st.inDouble then
    { st with inSingle := !st.inSingle }
  else if c = '"' && !st.inSingle then
    { st with inDouble := !st.inDouble }
  else if c = '\\' && ((!st.inSingle && !st.inDouble) || st.inDouble) then
    { st with toEscape := true }
  else if isWs c && !st.inSingle && !st.inDouble then
    if st.curr ≠ [] then
      { st with tokens := st.tokens ++ [st.curr], curr := [] }
    else
      st
  else
    { st with curr := st.curr ++ [c] }

/-- The scan loop of `tokenize`. -/
def tokRun (st : TokState) : Str → TokState
  | [] => st
  | c :: cs => tokRun (tokStep st c) cs

/-- Flush of the trailing fragment after the scan (lines 65-67). -/
def tokFinish (st : TokState) : List Str :=
  if st.curr ≠ [] then st.tokens ++ [st.curr] else st.tokens

/-- The initial tokenizer state. -/
def tokInit : TokState := ⟨[], [], false, false, false⟩

/-- Models `tokenize(input)`: trim, scan, flush. -/
def tokenize (input : Str) : List Str :=
  tokFinish (tokRun tokInit (trimStr input))

/-! ## Redirection splitter (`split_tokens`, src/parser.rs lines 72-85) -/

/-- The `REDIRECT_OPERATORS` constant (src/parser.rs line 4). -/
def redirectOperators : List Str :=
  [['>'], ['1', '>'], ['2', '>'], ['>', '>'], ['1', '>', '>'], ['2', '>', '>']]

/-- Models `REDIRECT_OPERATORS.contains(&token)`. -/
def isRedirectOp (t : Str) : Bool :=
  redirectOperators.contains t

/-- The `partition` of `split_tokens` with its captured
`found_redirect_operator` flag: once the flag is set every token goes to the
redirection side. -/
def splitTokensAux (found : Bool) : List Str → List Str × List Str
  | [] => ([], [])
  | t :: ts =>
    if found then
      let r := splitTokensAux true ts
      (r.1, t :: r.2)
    else if isRedirectOp t then
      let r := splitTokensAux true ts
      (r.1, t :: r.2)
    else
      let r := splitTokensAux false ts
      (t :: r.1, r.2)

/-- Models `split_tokens(tokens) -> (command_tokens, redirection_tokens)`. -/
def splitTokens (ts : List Str) : List Str × List Str :=
  splitTokensAux false ts

/-! ## Redirection parser and command builder (src/parser.rs lines 87-155) -/

inductive RedirectionChannel where
  | stdout
  | stderr
  deriving DecidableEq

inductive RedirectionKind where
  | redirect
  | append
  deriving DecidableEq

structure Redirection where
  kind : RedirectionKind
  channel : RedirectionChannel
  file : Str
  deriving DecidableEq

/-- How a Rust panic arose; returning `Except.error (k : PanicKind)` models
the process aborting with that panic. -/
inductive PanicKind where
  | indexOutOfBounds
  | parseIntFailure
  | fileOpenFailure
  deriving DecidableEq

/-- Models `parse_redirection`: the first token selects mode and channel; the
destination is `redirection_tokens[1]`, whose indexing panics when absent. -/
def parseRedirection : List Str → Except PanicKind (Option Redirection)
  | [] => .ok none
  | t :: rest =>
    if t = ['>'] ∨ t = ['1', '>'] then
      match rest with
      | [] => .error .indexOutOfBounds
      | f :: _ => .ok (some ⟨.redirect, .stdout, f⟩)
    else if t = ['2', '>'] then
      match rest with
      | [] => .error .indexOutOfBounds
      | f :: _ => .ok (some ⟨.redirect, .stderr, f⟩)
    else if t = ['>', '>'] ∨ t = ['1', '>', '>'] then
      match rest with
      | [] => .error .indexOutOfBounds
      | f :: _ => .ok (some ⟨.append, .stdout, f⟩)
    else if t = ['2', '>', '>'] then
      match rest with
      | [] => .error .indexOutOfBounds
      | f :: _ => .ok (some ⟨.append, .stderr, f⟩)
    else
      .ok none

/-- Decimal value of a digit string; `none` if empty or any non-ASCII-digit,
as in Rust's integer `FromStr`. -/
def digitsVal : Str → Option Nat
  | [] => none
  | [c] => if c.isDigit then some (c.toNat - '0'.toNat) else none
  | c :: cs =>
    if c.isDigit then
      (digitsVal cs).map (fun n => (c.toNat - '0'.toNat) * 10 ^ cs.length + n)
    else
      none

/-- Models Rust `str::parse::<i32>`: optional sign, at least one digit, value
within `i32` range. -/
def parseI32 (s : Str) : Option Int :=
  match s with
  | '+' :: ds => (digitsVal ds).bind fun n =>
      if n ≤ 2147483647 then some (n : Int) else none
  | '-' :: ds => (digitsVal ds).bind fun n =>
      if n ≤ 2147483648 then some (-(n : Int)) else none
  | ds => (digitsVal ds).bind fun n =>
      if n ≤ 2147483647 then some (n : Int) else none

/-- The command variants (src/command.rs lines 26-54). -/
inductive Command where
  | echo (args : List Str) (redirection : Option Redirection)
  | exit (arg : Int)
  | type (arg : Str) (redirection : Option Redirection)
  | external (name : Str) (args : List Str) (redirection : Option Redirection)
  | pwd (redirection : Option Redirection)
  | cd (arg : Str)
  | cat (args : List Str) (redirection : Option Redirection)
  deriving DecidableEq

/-- Models `expand_home_path` (src/utils.rs lines 6-18); `home` is the value of the
`HOME` environment variable. -/
def expandHomePath (home : Str) (path : Str) : Str :=
  match path with
  | '~' :: rest => home ++ rest
  | _ => path

/-- The command builder `parse` (src/parser.rs lines 117-155). Indexing
`command_tokens[0]`/`[1]` out of bounds and `parse().unwrap()` failures are
panics. -/
def parse (home : Str) (commandTokens : List Str) (redirection : Option Redirection) :
    Except PanicKind Command :=
  match commandTokens with
  | [] => .error .indexOutOfBounds
  | t :: rest =>
    if t = "echo".data then
      .ok (.echo rest redirection)
    else if t = "exit".data then
      match rest with
      | [] => .ok (.exit 0)
      | a :: _ =>
        match parseI32 a with
        | some n => .ok (.exit n)
        | none => .error .parseIntFailure
    else if t = "type".data then
      match rest with
      | [] => .error .indexOutOfBounds
      | a :: _ => .ok (.type a redirection)
    else if t = "pwd".data then
      .ok (.pwd redirection)
    else if t = "cd".data then
      match rest with
      | [] => .error .indexOutOfBounds
      | a :: _ => .ok (.cd (expandHomePath home a))
    else if t = "cat".data then
      .ok (.cat (rest.map (expandHomePath home)) redirection)
    else
      .ok (.external t rest redirection)

/-- Models `parse_command` (src/parser.rs lines 6-12). -/
def parseCommand (home : Str) (line : Str) : Except PanicKind Command :=
  let tokens := tokenize line
  let split := splitTokens tokens
  match parseRedirection split.2 with
  | .error e => .error e
  | .ok r => parse home split.1 r

/-! ## File system model and the output router (`write_output`, src/utils.rs) -/

/-- The file system: a path maps to `some content` (readable file) or `none`
(absent). -/
def FileSys := Str → Option Str

/-- Models `fs::write(path, content)`: create or truncate, then write `content`. -/
def setFile (fs : FileSys) (p : Str) (content : Str) : FileSys :=
  fun q => if q = p then some content else fs q

/-- Models `write_output(output, redirection, success)` (src/utils.rs lines 25-56).
Returns the file system after the call together with the text printed to the
terminal. `fs::metadata(&f).is_err()` is modelled as the file being absent.
The `success` flag tags the chunk's channel: `true` = stdout, `false` =
stderr. -/
def writeOutput (output : Str) (redirection : Option Redirection) (success : Bool)
    (fs : FileSys) : FileSys × Str :=
  match redirection with
  | none => (fs, output)
  | some r =>
    -- ensure the target exists (lines 27-32): truncate mode always re-creates;
    -- append mode creates only when the metadata check fails (file absent)
    let fs1 :=
      if r.kind = .redirect ∨ (r.kind = .append ∧ fs r.file = none) then
        setFile fs r.file []
      else
        fs
    if (success = true ∧ r.channel = .stdout) ∨ (success = false ∧ r.channel = .stderr) then
      if r.kind = .redirect then
        (setFile fs1 r.file output, [])
      else
        -- OpenOptions create+append, seek to end, write (lines 40-47)
        (setFile fs1 r.file ((fs1 r.file).getD [] ++ output), [])
    else
      (fs1, output)

/-! ## The `Cat` execution arm (src/command.rs lines 160-231) -/

/-- Models `format!("cat: \x7b\x7d: No such file or directory\n", file)`. -/
def catErr (f : Str) : Str :=
  "cat: ".data ++ f ++ ": No such file or directory\n".data

/-- The gather loop of the `Cat` arm (lines 161-169), with the mutable
`output`/`error` pair as accumulator: readable files are concatenated onto
`output`; each missing file *overwrites* `error` (the source assigns, it
does not append), so only the last missing file's message survives. -/
def catGatherLoop (fs : FileSys) : List Str → Str × Str → Str × Str
  | [], acc => acc
  | f :: rest, acc =>
    match fs f with
    | none => catGatherLoop fs rest (acc.1, catErr f)
    | some content => catGatherLoop fs rest (acc.1 ++ content, acc.2)

/-- The gathered `(output, error)` texts of the `Cat` arm. -/
def catGather (args : List Str) (fs : FileSys) : Str × Str :=
  catGatherLoop fs args ([], [])

/-- Models `fs::exists(&path).is_err()` in the `Cat` arm (line 174): in this
model existence is always determinable, so `fs::exists` returns `Ok` (for
present and absent files alike) and `is_err()` is `false`. -/
def existsIsErr (_fs : FileSys) (_path : Str) : Bool := false

/-- Models `OpenOptions::new().write(true).append(true).open(&file)` (lines 183-189,
198-204, 212-218): no `create(true)`, so opening an absent file fails and the
`unwrap` panics; otherwise the write appends. -/
def openAppendOrPanic (fs : FileSys) (p : Str) (text : Str) :
    Except PanicKind FileSys :=
  match fs p with
  | none => .error .fileOpenFailure
  | some old => .ok (setFile fs p (old ++ text))

/-- The routing tail of the `Cat` arm (lines 171-230), given the gathered
`output` and `error` texts. Returns the file system after execution and the
text printed to the terminal, or the panic that aborted it. -/
def catRoute (output error : Str) (redirection : Option Redirection) (fs : FileSys) :
    Except PanicKind (FileSys × Str) :=
  match redirection with
  | none =>
    -- lines 224-230: the error text, when present, is printed instead of
    -- the output text
    .ok (fs, if error ≠ [] then error else output)
  | some r =>
    let fs1 :=
      if r.kind = .redirect ∨ (r.kind = .append ∧ existsIsErr fs r.file = true) then
        setFile fs r.file []
      else
        fs
    if error ≠ [] ∧ r.channel = .stderr then
      if r.kind = .redirect then
        .ok (setFile fs1 r.file error, output)
      else
        (openAppendOrPanic fs1 r.file error).map (fun fs2 => (fs2, output))
    else if error ≠ [] ∧ r.channel = .stdout then
      if r.kind = .redirect then
        .ok (setFile fs1 r.file output, error)
      else
        (openAppendOrPanic fs1 r.file output).map (fun fs2 => (fs2, error))
    else if error = [] ∧ r.channel = .stdout then
      if r.kind = .redirect then
        .ok (setFile fs1 r.file output, [])
      else
        (openAppendOrPanic fs1 r.file output).map (fun fs2 => (fs2, []))
    else
      .ok (fs1, output)

/-- The whole `Cat` arm: gather, then route. -/
def catExecute (args : List Str) (redirection : Option Redirection) (fs : FileSys) :
    Except PanicKind (FileSys × Str) :=
  let g := catGather args fs
  catRoute g.1 g.2 redirection fs

/-! ## External-program resolution (src/command.rs lines 61-84,
src/main.rs lines 114-134) -/

/-- Directory listings: a directory path maps to `Except.error msg` when
`fs::read_dir` fails with `msg`, else to the ordered entry filenames.
Per-entry errors (which the source silently skips via `if let Ok(entry)`)
are not modelled: every listed entry is a successful one. -/
def DirListing := Str → Except Str (List Str)

/-- Rust `str::split(sep)`: keeps empty pieces. -/
def splitOn (sep : Char) : Str → List Str
  | [] => [[]]
  | c :: cs =>
    let r := splitOn sep cs
    if c = sep then
      [] :: r
    else
      match r with
      | [] => [[c]]
      | t :: ts => (c :: t) :: ts

/-- Models `entry.path().display()`: the directory joined with the entry filename. -/
def entryPath (dir name : Str) : Str := dir ++ ['/'] ++ name

/-- The directory loop shared by `Command::arg_check_in_path` and
`is_present_in_path`: scan directories in order; a read error aborts with
that error; the first entry equal to `arg` wins. -/
def searchDirs (readDir : DirListing) (arg : Str) : List Str → Except Str Str
  | [] => .error (arg ++ " not found".data)
  | d :: ds =>
    match readDir d with
    | .error e => .error e
    | .ok entries =>
      match entries.find? (fun e => e = arg) with
      | some e => .ok (entryPath d e)
      | none => searchDirs readDir arg ds

/-- Models `arg_check_in_path` / `is_present_in_path`: split the path variable on
`:` and run the directory loop. -/
def argCheckInPath (readDir : DirListing) (pathVar : Str) (arg : Str) :
    Except Str Str :=
  searchDirs readDir arg (splitOn ':' pathVar)

/-! ## Sample inputs used by concrete witnesses and counterexamples -/

/-- A sample file system: `a` is readable with content `A`, `f` is readable
with content `old`, everything else is absent. -/
def sampleFs : FileSys := fun p =>
  if p = "a".data then some "A".data
  else if p = "f".data then some "old".data
  else none

/-- Projection: the panic of a failed execution, if any. -/
def panicOf {α : Type} : Except PanicKind α → Option PanicKind
  | .error e => some e
  | .ok _ => none

/-- Projection: the terminal text of a successful execution. -/
def termOf (r : Except PanicKind (FileSys × Str)) : Option Str :=
  match r with
  | .error _ => none
  | .ok x => some x.2

/-- Projection: the content of file `p` after a successful execution. -/
def fileOf (r : Except PanicKind (FileSys × Str)) (p : Str) : Option (Option Str) :=
  match r with
  | .error _ => none
  | .ok x => some (x.1 p)

/-! ## Helper lemmas -/

lemma splitTokensAux_found_true (ts : List Str) : splitTokensAux true ts = ([], ts) := by
  induction ts with
  | nil => rfl
  | cons t ts ih => simp [splitTokensAux, ih]

/-! ## C8: the redirection splitter splits at the first operator token -/

/-- C8: `split_tokens` returns the pair whose first component is the tokens
strictly before the first redirection-operator token and whose second
component is that operator token together with every later token (operators
included); with no operator token the result is the full sequence paired
with the empty list. `takeWhile`/`dropWhile` on the non-operator predicate is
exactly that description. -/
theorem splitTokens_first_operator (ts : List Str) :
    splitTokens ts =
      (ts.takeWhile (fun t => !(isRedirectOp t)),
       ts.dropWhile (fun t => !(isRedirectOp t))) := by
  unfold splitTokens
  induction ts with
  | nil => rfl
  | cons t ts ih =>
    by_cases h : isRedirectOp t
    · simp [splitTokensAux, h, splitTokensAux_found_true, List.takeWhile_cons,
        List.dropWhile_cons]
    · simp [splitTokensAux, h, ih, List.takeWhile_cons, List.dropWhile_cons]

/-! ## C10: a trailing redirection operator with no target panics -/

/-- C10: for a line whose final token is a redirection operator with no
destination token after it, `parse_redirection` indexes
`redirection_tokens[1]` out of bounds, a panic; in particular
`parse_command("echo hi >")` panics instead of producing a command or a
recoverable error. -/
theorem parseRedirection_missing_target_panics :
    (∀ op ∈ redirectOperators, parseRedirection [op] = .error .indexOutOfBounds) ∧
    parseCommand [] "echo hi >".data = .error .indexOutOfBounds := by
  constructor
  · decide
  · decide

/-- Witness for C10 at the `>` operator. -/
theorem parseRedirection_missing_target_panics_witness :
    (['>'] ∈ redirectOperators) ∧ parseRedirection [['>']] = .error .indexOutOfBounds :=
  ⟨by decide, parseRedirection_missing_target_panics.1 ['>'] (by decide)⟩

/-! ## C3: malformed `type` / `exit` invocations -/

/-- C3 counterexample: the claim says the builder treats `type` with no
argument as a fatal input error for that line only, without crashing the
interpreter loop (no process panic). The builder instead panics: indexing
`command_tokens[1]` on `["type"]` is out of bounds, and a Rust panic aborts
the process, interpreter loop included. -/
theorem parse_type_missing_arg_counterexample :
    parse [] ["type".data] none = .error .indexOutOfBounds := by
  decide

/-- C3 amended: `type` with no argument token panics with an out-of-bounds
index, and `exit` with an argument that does not parse as an `i32` panics in
`unwrap` on the parse failure; both abort the process rather than recovering
for the next prompt. -/
theorem parse_malformed_builtin_panics (home : Str) (r : Option Redirection)
    (a : Str) (ha : parseI32 a = none) :
    parse home ["type".data] r = .error .indexOutOfBounds ∧
    parse home ["exit".data, a] r = .error .parseIntFailure := by
  constructor
  · rfl
  · have h : parse home ["exit".data, a] r =
        (match parseI32 a with
         | some n => .ok (.exit n)
         | none => .error .parseIntFailure) := rfl
    rw [h, ha]

/-- Witness for C3 at the argument `foo`. -/
theorem parse_malformed_builtin_panics_witness :
    parseI32 "foo".data = none ∧
    (parse [] ["type".data] none = .error .indexOutOfBounds ∧
     parse [] ["exit".data, "foo".data] none = .error .parseIntFailure) :=
  ⟨by decide, parse_malformed_builtin_panics [] none "foo".data (by decide)⟩

/-! ## C4: `cat` without redirection prints error instead of both chunks -/

/-- C4 counterexample: with `a` readable (content `A`) and `b` missing, the
gathered stdout text is `A`, yet the terminal receives only the stderr
message for `b`; the character `A` does not occur in what is printed, so the
stdout chunk is suppressed rather than printed alongside the error. -/
theorem cat_no_redirection_counterexample :
    (catGather ["a".data, "b".data] sampleFs).1 = "A".data ∧
    termOf (catExecute ["a".data, "b".data] none sampleFs) = some (catErr "b".data) ∧
    ¬ ('A' ∈ catErr "b".data) := by
  refine ⟨by decide, by decide, by decide⟩

/-- C4 amended: for a `Cat` command with no redirection, the terminal
receives exactly one of the two texts: the stderr error text when it is
nonempty (suppressing the concatenated stdout content), and the stdout
content otherwise. -/
theorem catRoute_no_redirection (output error : Str) (fs : FileSys) :
    catRoute output error none fs = .ok (fs, if error = [] then output else error) := by
  by_cases h : error = [] <;> simp [catRoute, h]

/-! ## C1: channel-mismatch passthrough -/

/-- C1 counterexample: redirect stdout to `f` in truncate mode while the
chunk carries the stderr channel (`success = false`). The chunk's text is
printed to the terminal, but the target file is *not* left untouched: the
ensure-exists step of `write_output` re-creates it, so its content `old` is
replaced by the empty string. -/
theorem writeOutput_mismatch_counterexample :
    sampleFs "f".data = some "old".data ∧
    (writeOutput "text".data (some ⟨.redirect, .stdout, "f".data⟩) false sampleFs).2
      = "text".data ∧
    (writeOutput "text".data (some ⟨.redirect, .stdout, "f".data⟩) false sampleFs).1 "f".data
      = some [] := by
  refine ⟨by decide, by decide, by decide⟩

/-- C1 amended: on a channel mismatch the chunk's text still goes to the
terminal exactly as with no redirection, but the target file is not always
untouched: the per-invocation ensure-exists step has already run, so in
Truncate mode the file is re-created empty, and in Append mode a missing
file is created empty; only an Append redirection whose target already
exists leaves the file untouched. -/
theorem writeOutput_channel_mismatch (out : Str) (success : Bool) (r : Redirection)
    (fs : FileSys)
    (h : (success = true ∧ r.channel = .stderr) ∨ (success = false ∧ r.channel = .stdout)) :
    writeOutput out (some r) success fs =
      ((if r.kind = .redirect ∨ (r.kind = .append ∧ fs r.file = none)
          then setFile fs r.file []
          else fs),
       out) := by
  obtain ⟨hs, hc⟩ | ⟨hs, hc⟩ := h <;> subst hs <;> simp [writeOutput, hc]

/-- Witness for C1: a stderr-channel chunk under a truncate-stdout
redirection. -/
theorem writeOutput_channel_mismatch_witness :
    ((false = true ∧ RedirectionChannel.stdout = .stderr) ∨
     (false = false ∧ RedirectionChannel.stdout = .stdout)) ∧
    writeOutput "text".data (some ⟨.redirect, .stdout, "f".data⟩) false sampleFs =
      ((if RedirectionKind.redirect = .redirect ∨
           (RedirectionKind.redirect = .append ∧ sampleFs "f".data = none)
          then setFile sampleFs "f".data []
          else sampleFs),
       "text".data) :=
  ⟨Or.inr ⟨rfl, rfl⟩,
   writeOutput_channel_mismatch "text".data false ⟨.redirect, .stdout, "f".data⟩ sampleFs
     (Or.inr ⟨rfl, rfl⟩)⟩

/-! ## C2: append-mode existence check -/

/-- C2 failing input: `Cat` with an append redirection to the absent path
`g`. The `Cat` arm checks `fs::exists(&file).is_err()` — which is `false`
for a merely absent file — so no empty file is created, and the subsequent
`OpenOptions` open without `create(true)` panics. By contrast `write_output`
(used by every other command variant) checks `fs::metadata(&file).is_err()`,
creates the missing file, and appends to it, which is the claimed
behavior. -/
theorem cat_append_missing_target_panics :
    sampleFs "g".data = none ∧
    panicOf (catExecute ["a".data] (some ⟨.append, .stdout, "g".data⟩) sampleFs)
      = some .fileOpenFailure ∧
    (writeOutput "x".data (some ⟨.append, .stdout, "g".data⟩) true sampleFs).1 "g".data
      = some "x".data := by
  refine ⟨by decide, by decide, by decide⟩

/-! ## Tokenizer on plain input: whitespace splitting -/

/-- Lines with no quote characters and no backslash escape characters. -/
def noQuoteEscape (s : Str) : Bool :=
  s.all (fun c => !(c = '\'' || c = '"' || c = '\\'))

/-- Standard whitespace splitter with an accumulated fragment: collapses
whitespace runs and emits no empty words. This is the claim-side description
of what `tokenize` does on plain input. -/
def wsWordsAux : Str → Str → List Str
  | curr, [] => if curr ≠ [] then [curr] else []
  | curr, c :: cs =>
    if isWs c then
      if curr ≠ [] then curr :: wsWordsAux [] cs else wsWordsAux [] cs
    else
      wsWordsAux (curr ++ [c]) cs

/-- Whitespace-split words of a line. -/
def wsWords (s : Str) : List Str := wsWordsAux [] s

lemma wsWordsAux_nil (curr : Str) :
    wsWordsAux curr [] = if curr ≠ [] then [curr] else [] := rfl

lemma wsWordsAux_cons (curr : Str) (c : Char) (cs : Str) :
    wsWordsAux curr (c :: cs) =
      if isWs c then
        if curr ≠ [] then curr :: wsWordsAux [] cs else wsWordsAux [] cs
      else
        wsWordsAux (curr ++ [c]) cs := rfl

lemma wsWordsAux_ne_nil : ∀ (s : Str) (curr : Str), [] ∉ wsWordsAux curr s := by
  intro s
  induction s with
  | nil =>
    intro curr h
    by_cases hc : curr = []
    · simp [wsWordsAux_nil, hc] at h
    · rw [wsWordsAux_nil, if_pos hc, List.mem_singleton] at h
      exact hc h.symm
  | cons c cs ih =>
    intro curr h
    rw [wsWordsAux_cons] at h
    by_cases hw : isWs c = true
    · rw [if_pos hw] at h
      by_cases hc : curr = []
      · rw [if_neg (by simp [hc])] at h
        exact ih [] h
      · rw [if_pos hc] at h
        rcases List.mem_cons.mp h with he | hm
        · exact hc he.symm
        · exact ih [] hm
    · rw [if_neg hw] at h
      exact ih (curr ++ [c]) h

/-- On quote-free, escape-free input, the `tokenize` scan started on clean
flags is the whitespace splitter with the current accumulated fragment. -/
lemma tokRun_plain : ∀ (s : Str), noQuoteEscape s = true →
    ∀ (tokens : List Str) (curr : Str),
      tokFinish (tokRun ⟨tokens, curr, false, false, false⟩ s) =
        tokens ++ wsWordsAux curr s := by
  intro s
  induction s with
  | nil =>
    intro _ tokens curr
    by_cases h : curr = [] <;> simp [tokRun, tokFinish, wsWordsAux, h]
  | cons c cs ih =>
    intro hall tokens curr
    have hfacts := hall
    rw [noQuoteEscape, List.all_cons, Bool.and_eq_true] at hfacts
    obtain ⟨hhead, hcs'⟩ := hfacts
    have hcs : noQuoteEscape cs = true := hcs'
    have hc1 : ¬(c = '\'') := by intro he; rw [he] at hhead; simp at hhead
    have hc2 : ¬(c = '"') := by intro he; rw [he] at hhead; simp at hhead
    have hc3 : ¬(c = '\\') := by intro he; rw [he] at hhead; simp at hhead
    by_cases hw : isWs c = true
    · by_cases hcur : curr = []
      · have hstep : tokStep ⟨tokens, curr, false, false, false⟩ c =
            ⟨tokens, curr, false, false, false⟩ := by
          simp [tokStep, hc1, hc2, hc3, hw, hcur]
        rw [tokRun, hstep, ih hcs tokens curr, wsWordsAux_cons]
        simp [hw, hcur]
      · have hstep : tokStep ⟨tokens, curr, false, false, false⟩ c =
            ⟨tokens ++ [curr], [], false, false, false⟩ := by
          simp [tokStep, hc1, hc2, hc3, hw, hcur]
        rw [tokRun, hstep, ih hcs (tokens ++ [curr]) [], wsWordsAux_cons]
        simp [hw, hcur]
    · have hstep : tokStep ⟨tokens, curr, false, false, false⟩ c =
          ⟨tokens, curr ++ [c], false, false, false⟩ := by
        simp [tokStep, hc1, hc2, hc3, hw]
      rw [tokRun, hstep, ih hcs tokens (curr ++ [c]), wsWordsAux_cons]
      simp [hw]

/-- Membership transfers from the trimmed line to the line. -/
lemma mem_trimStr {c : Char} {s : Str} (h : c ∈ trimStr s) : c ∈ s := by
  unfold trimStr at h
  rw [List.mem_reverse] at h
  have h1 := (List.dropWhile_sublist (p := isWs)
    (l := (s.dropWhile isWs).reverse)).mem h
  rw [List.mem_reverse] at h1
  exact (List.dropWhile_sublist (p := isWs) (l := s)).mem h1

lemma noQuoteEscape_trimStr {s : Str} (h : noQuoteEscape s = true) :
    noQuoteEscape (trimStr s) = true := by
  simp only [noQuoteEscape, List.all_eq_true] at h ⊢
  intro c hm
  exact h c (mem_trimStr hm)

/-! ## C6: plain lines tokenize to whitespace-split words -/

/-- C6: for every input line with no quote characters and no backslash
characters, `tokenize` returns exactly the whitespace-split words of the
trimmed line — runs of whitespace collapse to single separators — and no
empty token is emitted. -/
theorem tokenize_plain_whitespace_split (line : Str) (h : noQuoteEscape line = true) :
    tokenize line = wsWords (trimStr line) ∧ ∀ t ∈ tokenize line, t ≠ [] := by
  have key : tokenize line = wsWords (trimStr line) := by
    have h1 := tokRun_plain (trimStr line) (noQuoteEscape_trimStr h) [] []
    simpa [tokenize, wsWords, tokInit] using h1
  refine ⟨key, ?_⟩
  intro t ht he
  rw [key] at ht
  subst he
  exact wsWordsAux_ne_nil (trimStr line) [] ht

/-- Witness for C6 on the line `  echo  hello   world `. -/
theorem tokenize_plain_whitespace_split_witness :
    noQuoteEscape "  echo  hello   world ".data = true ∧
    (tokenize "  echo  hello   world ".data =
        wsWords (trimStr "  echo  hello   world ".data) ∧
     ∀ t ∈ tokenize "  echo  hello   world ".data, t ≠ []) :=
  ⟨by decide, tokenize_plain_whitespace_split "  echo  hello   world ".data (by decide)⟩

/-! ## C7: escape handling of the tokenizer step -/

/-- C7: when an escape is pending, inside double quotes exactly the four
characters double quote, backslash, backtick, dollar consume the backslash
and are taken literally; any other character inside double quotes keeps both
the backslash and the character; outside double-quote mode the backslash is
always consumed and the next character taken literally; and with no escape
pending, a backslash inside single quotes is literal — it never sets the
escape flag. -/
theorem tokStep_escape_rules (st : TokState) (c : Char) :
    (st.toEscape = true → st.inDouble = true →
      (c = '"' ∨ c = '\\' ∨ c = '`' ∨ c = '$') →
      tokStep st c = { st with curr := st.curr ++ [c], toEscape := false }) ∧
    (st.toEscape = true → st.inDouble = true →
      ¬(c = '"') → ¬(c = '\\') → ¬(c = '`') → ¬(c = '$') →
      tokStep st c = { st with curr := st.curr ++ ['\\', c], toEscape := false }) ∧
    (st.toEscape = true → st.inDouble = false →
      tokStep st c = { st with curr := st.curr ++ [c], toEscape := false }) ∧
    (st.toEscape = false → st.inSingle = true → st.inDouble = false →
      tokStep st '\\' = { st with curr := st.curr ++ ['\\'] }) := by
  refine ⟨?_, ?_, ?_, ?_⟩
  · intro h1 h2 h3
    rcases h3 with h | h | h | h <;> subst h <;> simp [tokStep, h1, h2]
  · intro h1 h2 h3 h4 h5 h6
    simp [tokStep, h1, h2, h3, h4, h5, h6]
  · intro h1 h2
    simp [tokStep, h1, h2]
  · intro h1 h2 h3
    have hws : isWs '\\' = false := by decide
    simp [tokStep, h1, h2, h3, hws]

/-- Witness for C7: a pending escape in double quotes at the character
dollar resolves to the literal dollar. -/
theorem tokStep_escape_rules_witness :
    tokStep ⟨[], [], false, true, true⟩ '$' = ⟨[], ['$'], false, true, false⟩ :=
  (tokStep_escape_rules ⟨[], [], false, true, true⟩ '$').1 rfl rfl
    (Or.inr (Or.inr (Or.inr rfl)))

/-! ## C5: round trip through space-joined reconstruction -/

/-- Joining a token list with single spaces. -/
def joinSpace : List Str → Str
  | [] => []
  | [t] => t
  | t :: ts => t ++ ' ' :: joinSpace ts

lemma joinSpace_single (t : Str) : joinSpace [t] = t := rfl

lemma joinSpace_cons₂ (t t' : Str) (ts : List Str) :
    joinSpace (t :: t' :: ts) = t ++ ' ' :: joinSpace (t' :: ts) := rfl

/-- Tokens for which the round trip holds: nonempty, and free of whitespace,
quote and backslash characters. -/
def goodToken (t : Str) : Bool :=
  (t ≠ []) && t.all (fun c => !(isWs c || c = '\'' || c = '"' || c = '\\'))

lemma goodToken_ne_nil {t : Str} (h : goodToken t = true) : t ≠ [] := by
  rw [goodToken, Bool.and_eq_true] at h
  exact of_decide_eq_true h.1

lemma goodToken_no_ws {t : Str} (h : goodToken t = true) :
    ∀ c ∈ t, isWs c = false := by
  rw [goodToken, Bool.and_eq_true, List.all_eq_true] at h
  intro c hc
  have h2 := h.2 c hc
  by_cases hw : isWs c = true
  · rw [hw] at h2; simp at h2
  · exact Bool.eq_false_iff.mpr hw

lemma mem_joinSpace : ∀ (ts : List Str) (c : Char),
    c ∈ joinSpace ts → c = ' ' ∨ ∃ t ∈ ts, c ∈ t := by
  intro ts
  induction ts with
  | nil => intro c hc; simp [joinSpace] at hc
  | cons t ts' ih =>
    cases ts' with
    | nil =>
      intro c hc
      rw [joinSpace_single] at hc
      exact Or.inr ⟨t, List.mem_cons_self t [], hc⟩
    | cons t' ts'' =>
      intro c hc
      rw [joinSpace_cons₂, List.mem_append] at hc
      rcases hc with hc | hc
      · exact Or.inr ⟨t, List.mem_cons_self t _, hc⟩
      · rcases List.mem_cons.mp hc with he | hc
        · exact Or.inl he
        · rcases ih c hc with h | ⟨u, hu, hcu⟩
          · exact Or.inl h
          · exact Or.inr ⟨u, List.mem_cons_of_mem t hu, hcu⟩

lemma noQuoteEscape_joinSpace (ts : List Str)
    (h : ∀ t ∈ ts, goodToken t = true) :
    noQuoteEscape (joinSpace ts) = true := by
  rw [noQuoteEscape, List.all_eq_true]
  intro c hc
  rcases mem_joinSpace ts c hc with he | ⟨t, ht, hct⟩
  · subst he; decide
  · have hg := h t ht
    rw [goodToken, Bool.and_eq_true, List.all_eq_true] at hg
    have h2 := hg.2 c hct
    simp only [Bool.not_eq_true', Bool.or_eq_false_iff, decide_eq_false_iff_not] at h2 ⊢
    exact ⟨⟨h2.1.1.2, h2.1.2⟩, h2.2⟩

lemma wsWordsAux_append_plain : ∀ (t : Str), (∀ c ∈ t, isWs c = false) →
    ∀ (curr rest : Str), wsWordsAux curr (t ++ rest) = wsWordsAux (curr ++ t) rest := by
  intro t
  induction t with
  | nil => intro _ curr rest; simp
  | cons c t' ih =>
    intro h curr rest
    have hc : isWs c = false := h c (List.mem_cons_self c t')
    have ht' : ∀ x ∈ t', isWs x = false :=
      fun x hx => h x (List.mem_cons_of_mem c hx)
    rw [List.cons_append, wsWordsAux_cons, if_neg (by simp [hc]),
      ih ht' (curr ++ [c]) rest]
    simp [List.append_assoc]

lemma joinSpace_words : ∀ (ts : List Str), (∀ t ∈ ts, goodToken t = true) →
    wsWordsAux [] (joinSpace ts) = ts := by
  intro ts
  induction ts with
  | nil => intro _; rfl
  | cons t ts' ih =>
    intro h
    have hg := h t (List.mem_cons_self t ts')
    have htail : ∀ u ∈ ts', goodToken u = true :=
      fun u hu => h u (List.mem_cons_of_mem t hu)
    cases ts' with
    | nil =>
      rw [joinSpace_single]
      have h1 := wsWordsAux_append_plain t (goodToken_no_ws hg) [] []
      simpa [wsWordsAux_nil, goodToken_ne_nil hg] using h1
    | cons t' ts'' =>
      rw [joinSpace_cons₂]
      have h1 := wsWordsAux_append_plain t (goodToken_no_ws hg) []
        (' ' :: joinSpace (t' :: ts''))
      rw [h1, List.nil_append, wsWordsAux_cons, if_pos (by decide : isWs ' ' = true),
        if_pos (goodToken_ne_nil hg), ih htail]

lemma wsWordsAux_all_ws : ∀ (w : Str), (∀ c ∈ w, isWs c = true) →
    ∀ (curr : Str), wsWordsAux curr w = if curr ≠ [] then [curr] else [] := by
  intro w
  induction w with
  | nil => intro _ curr; rfl
  | cons c cs ih =>
    intro h curr
    have hc := h c (List.mem_cons_self c cs)
    have hcs : ∀ x ∈ cs, isWs x = true :=
      fun x hx => h x (List.mem_cons_of_mem c hx)
    rw [wsWordsAux_cons, if_pos hc]
    by_cases hcur : curr = []
    · rw [if_neg (by simp [hcur]), ih hcs []]
      simp [hcur]
    · rw [if_pos hcur, ih hcs []]
      simp [hcur]

lemma wsWordsAux_append_ws : ∀ (s w : Str), (∀ c ∈ w, isWs c = true) →
    ∀ (curr : Str), wsWordsAux curr (s ++ w) = wsWordsAux curr s := by
  intro s
  induction s with
  | nil =>
    intro w hw curr
    rw [List.nil_append, wsWordsAux_all_ws w hw, wsWordsAux_nil]
  | cons c cs ih =>
    intro w hw curr
    rw [List.cons_append, wsWordsAux_cons, wsWordsAux_cons]
    by_cases hc : isWs c = true
    · rw [if_pos hc, if_pos hc]
      by_cases hcur : curr = []
      · rw [if_neg (by simp [hcur]), if_neg (by simp [hcur]), ih w hw []]
      · rw [if_pos hcur, if_pos hcur, ih w hw []]
    · rw [if_neg hc, if_neg hc, ih w hw (curr ++ [c])]

lemma wsWords_dropWhile (s : Str) : wsWords (s.dropWhile isWs) = wsWords s := by
  unfold wsWords
  induction s with
  | nil => rfl
  | cons c cs ih =>
    by_cases hc : isWs c = true
    · rw [List.dropWhile_cons, if_pos hc, ih, wsWordsAux_cons, if_pos hc,
        if_neg (by simp)]
    · rw [List.dropWhile_cons, if_neg hc]

lemma wsWords_trimStr (s : Str) : wsWords (trimStr s) = wsWords s := by
  have hs1eq : s.dropWhile isWs =
      ((s.dropWhile isWs).reverse.dropWhile isWs).reverse ++
        ((s.dropWhile isWs).reverse.takeWhile isWs).reverse := by
    calc s.dropWhile isWs = (s.dropWhile isWs).reverse.reverse :=
          (List.reverse_reverse _).symm
    _ = ((s.dropWhile isWs).reverse.takeWhile isWs ++
          (s.dropWhile isWs).reverse.dropWhile isWs).reverse := by
        rw [List.takeWhile_append_dropWhile]
    _ = ((s.dropWhile isWs).reverse.dropWhile isWs).reverse ++
          ((s.dropWhile isWs).reverse.takeWhile isWs).reverse :=
        List.reverse_append _ _
  have hwsw : ∀ c ∈ ((s.dropWhile isWs).reverse.takeWhile isWs).reverse,
      isWs c = true := by
    intro c hc
    rw [List.mem_reverse] at hc
    exact List.mem_takeWhile_imp hc
  calc wsWords (trimStr s)
      = wsWords (((s.dropWhile isWs).reverse.dropWhile isWs).reverse ++
          ((s.dropWhile isWs).reverse.takeWhile isWs).reverse) :=
        (wsWordsAux_append_ws _ _ hwsw []).symm
    _ = wsWords (s.dropWhile isWs) := by rw [← hs1eq]
    _ = wsWords s := wsWords_dropWhile s

/-- C5 counterexample: the single-token list holding `\n` (backslash then
`n`) contains no quote character and no space character, yet tokenizing its
space-joined reconstruction consumes the unquoted backslash and returns the
token `n` instead of the original token. -/
theorem tokenize_roundtrip_counterexample :
    (['\\', 'n'].all (fun c => !(c = '\'' || c = '"' || c = ' '))) = true ∧
    tokenize (joinSpace [['\\', 'n']]) = [['n']] ∧
    [['n']] ≠ [['\\', 'n']] := by
  refine ⟨by decide, by decide, by decide⟩

/-- C5 amended: for every list of tokens that are nonempty and contain no
whitespace, no quote and no backslash characters, tokenizing the
space-joined reconstruction returns the original list. -/
theorem tokenize_joinSpace_roundtrip (ts : List Str)
    (h : ∀ t ∈ ts, goodToken t = true) :
    tokenize (joinSpace ts) = ts := by
  have hnq : noQuoteEscape (joinSpace ts) = true := noQuoteEscape_joinSpace ts h
  have h1 : tokenize (joinSpace ts) = wsWords (trimStr (joinSpace ts)) := by
    have h2 := tokRun_plain (trimStr (joinSpace ts)) (noQuoteEscape_trimStr hnq) [] []
    simpa [tokenize, wsWords, tokInit] using h2
  rw [h1, wsWords_trimStr]
  exact joinSpace_words ts h

/-- Witness for C5 on the token list `[ab, c]`. -/
theorem tokenize_joinSpace_roundtrip_witness :
    (∀ t ∈ ["ab".data, "c".data], goodToken t = true) ∧
    tokenize (joinSpace ["ab".data, "c".data]) = ["ab".data, "c".data] :=
  ⟨by decide, tokenize_joinSpace_roundtrip ["ab".data, "c".data] (by decide)⟩

/-! ## C9: ordered path search with fail-fast directory errors -/

lemma searchDirs_cons (readDir : DirListing) (arg d : Str) (ds : List Str) :
    searchDirs readDir arg (d :: ds) =
      match readDir d with
      | .error e => .error e
      | .ok entries =>
        match entries.find? (fun e => e = arg) with
        | some e => .ok (entryPath d e)
        | none => searchDirs readDir arg ds := rfl

lemma find?_eq_self {arg : Str} : ∀ {l : List Str}, arg ∈ l →
    l.find? (fun e => e = arg) = some arg := by
  intro l
  induction l with
  | nil => intro h; simp at h
  | cons c l ih =>
    intro h
    by_cases hc : c = arg
    · subst hc
      rw [List.find?_cons_of_pos _ (by simp)]
    · rw [List.find?_cons_of_neg _ (by simp [hc])]
      exact ih ((List.mem_cons.mp h).resolve_left (fun he => hc he.symm))

lemma find?_eq_none_of_not_mem {arg : Str} {l : List Str} (h : arg ∉ l) :
    l.find? (fun e => e = arg) = none := by
  rw [List.find?_eq_none]
  intro x hx
  simp only [decide_eq_true_eq]
  intro he
  subst he
  exact h hx

lemma searchDirs_resolution (readDir : DirListing) (arg : Str) :
    ∀ (pre : List Str) (d : Str) (post : List Str),
      (∀ p ∈ pre, ∃ es, readDir p = .ok es ∧ arg ∉ es) →
      (∀ e, readDir d = .error e →
        searchDirs readDir arg (pre ++ d :: post) = .error e) ∧
      (∀ es, readDir d = .ok es → arg ∈ es →
        searchDirs readDir arg (pre ++ d :: post) = .ok (entryPath d arg)) := by
  intro pre
  induction pre with
  | nil =>
    intro d post _
    constructor
    · intro e he
      rw [List.nil_append, searchDirs_cons, he]
    · intro es hok hmem
      rw [List.nil_append, searchDirs_cons, hok]
      simp only [find?_eq_self hmem]
  | cons p pre' ih =>
    intro d post hpre
    obtain ⟨es, hok_p, hnot⟩ := hpre p (List.mem_cons_self p pre')
    have hpre' : ∀ q ∈ pre', ∃ es, readDir q = .ok es ∧ arg ∉ es :=
      fun q hq => hpre q (List.mem_cons_of_mem p hq)
    have hskip : searchDirs readDir arg ((p :: pre') ++ d :: post) =
        searchDirs readDir arg (pre' ++ d :: post) := by
      rw [List.cons_append, searchDirs_cons, hok_p]
      simp only [find?_eq_none_of_not_mem hnot]
    constructor
    · intro e he
      rw [hskip]
      exact (ih d post hpre').1 e he
    · intro es' hok hmem
      rw [hskip]
      exact (ih d post hpre').2 es' hok hmem

/-- C9: resolution searches the colon-separated directories in listed order;
with every earlier directory readable and matchless, a read error on the
current directory aborts resolution immediately with that error, and a match
in the current directory returns that entry's full path (directory joined
with the name). -/
theorem argCheckInPath_ordered_resolution (readDir : DirListing) (pathVar arg : Str)
    (pre : List Str) (d : Str) (post : List Str)
    (hsplit : splitOn ':' pathVar = pre ++ d :: post)
    (hpre : ∀ p ∈ pre, ∃ es, readDir p = .ok es ∧ arg ∉ es) :
    (∀ e, readDir d = .error e → argCheckInPath readDir pathVar arg = .error e) ∧
    (∀ es, readDir d = .ok es → arg ∈ es →
      argCheckInPath readDir pathVar arg = .ok (entryPath d arg)) := by
  unfold argCheckInPath
  rw [hsplit]
  exact searchDirs_resolution readDir arg pre d post hpre

/-- Sample directory listings: `etc` is readable and empty, `bin` is
readable and holds `ls`, every other directory fails to read. -/
def sampleReadDir : DirListing := fun d =>
  if d = "etc".data then .ok []
  else if d = "bin".data then .ok ["ls".data]
  else .error "denied".data

/-- Witness for C9: `ls` resolves through the path variable `etc:bin` to
`bin/ls`. -/
theorem argCheckInPath_ordered_resolution_witness :
    (splitOn ':' "etc:bin".data = ["etc".data] ++ "bin".data :: []) ∧
    argCheckInPath sampleReadDir "etc:bin".data "ls".data =
      .ok (entryPath "bin".data "ls".data) := by
  refine ⟨by decide, ?_⟩
  refine (argCheckInPath_ordered_resolution sampleReadDir "etc:bin".data "ls".data
    ["etc".data] "bin".data [] (by decide) ?_).2 ["ls".data] rfl
    (List.mem_cons_self _ _)
  intro p hp
  rw [List.mem_singleton] at hp
  subst hp
  exact ⟨[], rfl, by simp⟩

end ShellShell
